import Mathlib

/-!
Verification of the TruthStream live-annotation frontend (src/frontend/src/App.jsx).

The annotation engine keeps an ordered list of transcript fragments
(`transcriptSegments` in the source) and a claim registry (`claims`).
Inbound websocket messages drive three operations, embedded here from the
`ws.onmessage` handler:

* `transcript`      — append a fresh plain fragment;
* `claim_detected`  — scan the fragments backward, splice the matched one
  into before / claim / after pieces, and append a registry entry;
* `fact_check`      — map the registry, completing every entry whose id
  matches.

Texts are embedded as `List Char` (JS strings are sequences of code units;
all operations used by the source are per-unit).  JS `indexOf` is embedded
as `idxOf`, and the truthiness test `!segment.claimId` as `falsyId`.
-/

namespace TruthStream

/-- Transcript texts, embedded as explicit character lists. -/
abbrev Str := List Char

/-- Test whether `needle` occurs at the head of `hay` (the substring test JS `indexOf`
performs at one offset). -/
def leadsWith : Str → Str → Bool
  | [], _ => true
  | _ :: _, [] => false
  | a :: as, b :: bs => a == b && leadsWith as bs

/-- Embedding of JS `hay.indexOf(needle)`: the least offset where `needle`
occurs in `hay`, `none` for JS `-1`. -/
def idxOf (needle : Str) : Str → Option Nat
  | [] => if leadsWith needle [] then some 0 else none
  | c :: t =>
    if leadsWith needle (c :: t) then some 0
    else (idxOf needle t).map (fun k => k + 1)

/-- One fragment of the rendered transcript: `{text, claimId}` (the React
`id` key is presentation-only and not part of the model). -/
structure Fragment where
  text : Str
  claimId : Option String
deriving DecidableEq, Repr

/-- Embedding of the JS truthiness test `!segment.claimId`: `null` and the
empty string are both falsy. -/
def falsyId : Option String → Bool
  | none => true
  | some s => s == ""

/-- Status field of a registry entry. -/
inductive ClaimStatus
  | checking
  | complete
deriving DecidableEq, Repr

/-- One entry of the claim registry (`claims` array in the source). -/
structure ClaimRec where
  id : String
  text : Str
  status : ClaimStatus
  isTrue : Option Bool
  explanation : Option String
deriving DecidableEq, Repr

/-- Outcome of an engine operation, as classified by the branches of the source:
`spliced`/`notFound` for `claim_detected` (the not-found branch logs a
warning and returns `prev`), `updated`/`notFound` for `fact_check`. -/
inductive Outcome
  | spliced
  | notFound
  | updated
deriving DecidableEq, Repr

/-- The pieces that replace a matched fragment: before text (pushed only if
non-empty), the claim fragment, after text (pushed only if non-empty) —
lines 485–513 of the source. -/
def spliceFrag (claimId : String) (claimText : Str) (f : Fragment) (k : Nat) :
    List Fragment :=
  let before := f.text.take k
  let after := f.text.drop (k + claimText.length)
  (if before = [] then [] else [⟨before, none⟩]) ++
    [⟨claimText, some claimId⟩] ++
    (if after = [] then [] else [⟨after, none⟩])

/-- The backward scan of the `claim_detected` handler: walk
`for (let i = prev.length - 1; i >= 0; i--)` and splice the first fragment
(from the end) with `indexOf ≠ -1` and falsy `claimId`; `none` when the
loop falls through. -/
def spliceSegs (claimId : String) (claimText : Str) : List Fragment → Option (List Fragment)
  | [] => none
  | f :: rest =>
    match spliceSegs claimId claimText rest with
    | some rest2 => some (f :: rest2)
    | none =>
      match idxOf claimText f.text with
      | some k =>
        if falsyId f.claimId then some (spliceFrag claimId claimText f k ++ rest)
        else none
      | none => none

/-- Engine state: the fragment sequence and the claim registry. -/
structure EngineState where
  transcriptSegments : List Fragment
  claims : List ClaimRec
deriving DecidableEq, Repr

/-- Both arrays start empty (`useState([])`). -/
def initState : EngineState := ⟨[], []⟩

/-- The `transcript` handler: append `{text, claimId: null}`. -/
def onTranscript (s : EngineState) (text : Str) : EngineState :=
  { s with transcriptSegments := s.transcriptSegments ++ [⟨text, none⟩] }

/-- The registry entry appended by the `claim_detected` handler:
`{id, text, status: checking, isTrue: null, explanation: null}`. -/
def newClaimRec (id : String) (text : Str) : ClaimRec :=
  ⟨id, text, .checking, none, none⟩

/-- The `claim_detected` handler: splice the fragments (or leave them unchanged
when no fragment matches) and unconditionally append a registry entry. -/
def onClaimDetected (s : EngineState) (id : String) (claimText : Str) :
    EngineState × Outcome :=
  match spliceSegs id claimText s.transcriptSegments with
  | some segs2 =>
      (⟨segs2, s.claims ++ [newClaimRec id claimText]⟩, .spliced)
  | none =>
      (⟨s.transcriptSegments, s.claims ++ [newClaimRec id claimText]⟩, .notFound)

/-- The per-entry update of the `map` inside the `fact_check` handler. -/
def updClaim (id : String) (isTrue : Bool) (explanation : String) (c : ClaimRec) :
    ClaimRec :=
  if c.id = id then
    { c with status := .complete, isTrue := some isTrue, explanation := some explanation }
  else c

/-- The `fact_check` handler: map the registry, completing matching entries; the
outcome records whether any entry matched. -/
def onFactCheck (s : EngineState) (id : String) (isTrue : Bool) (explanation : String) :
    EngineState × Outcome :=
  ({ s with claims := s.claims.map (updClaim id isTrue explanation) },
   if s.claims.any (fun c => c.id == id) then .updated else .notFound)

/-- One inbound engine message. -/
inductive Op
  | transcript (text : Str)
  | claimDetected (id : String) (claimText : Str)
  | factCheck (id : String) (isTrue : Bool) (explanation : String)
deriving DecidableEq, Repr

/-- Apply one message to the state. -/
def applyOp (s : EngineState) : Op → EngineState
  | .transcript t => onTranscript s t
  | .claimDetected id ct => (onClaimDetected s id ct).1
  | .factCheck id v e => (onFactCheck s id v e).1

/-- Run a message sequence from the initial state. -/
def runOps (ops : List Op) : EngineState := ops.foldl applyOp initState

/-- Concatenation of all fragment texts, in order. -/
def fullText (s : EngineState) : Str := (s.transcriptSegments.map Fragment.text).flatten

/-- Concatenation of all `transcript` texts of a message sequence, in order. -/
def transcriptText : List Op → Str
  | [] => []
  | .transcript t :: rest => t ++ transcriptText rest
  | .claimDetected _ _ :: rest => transcriptText rest
  | .factCheck _ _ _ :: rest => transcriptText rest

/-! ### Properties of the substring search -/

/-- Occurrence of `needle` in `hay` at offset `k`. -/
def occursAt (needle hay : Str) (k : Nat) : Prop :=
  ∃ t, hay.drop k = needle ++ t

theorem leadsWith_iff : ∀ needle hay : Str, leadsWith needle hay = true ↔ ∃ t, hay = needle ++ t
  | [], hay => by simp [leadsWith]
  | a :: as, [] => by simp [leadsWith]
  | a :: as, b :: bs => by
    simp only [leadsWith, Bool.and_eq_true, beq_iff_eq, leadsWith_iff as bs, List.cons_append]
    constructor
    · rintro ⟨rfl, t, rfl⟩
      exact ⟨t, rfl⟩
    · rintro ⟨t, h⟩
      cases h
      exact ⟨rfl, t, rfl⟩

instance (needle hay : Str) (k : Nat) : Decidable (occursAt needle hay k) :=
  decidable_of_iff (leadsWith needle (hay.drop k) = true)
    (by rw [leadsWith_iff]; exact Iff.rfl)

theorem idxOf_occursAt :
    ∀ (needle hay : Str) (k : Nat), idxOf needle hay = some k → occursAt needle hay k
  | needle, [], k => by
    simp only [idxOf]
    split
    · rename_i h
      intro hk
      cases hk
      exact ⟨[], by simpa using (leadsWith_iff needle []).mp h⟩
    · intro hk; cases hk
  | needle, c :: t, k => by
    simp only [idxOf]
    split
    · rename_i h
      intro hk
      cases hk
      obtain ⟨u, hu⟩ := (leadsWith_iff needle (c :: t)).mp h
      exact ⟨u, by simpa using hu⟩
    · intro hk
      obtain ⟨k0, hk0, rfl⟩ := Option.map_eq_some'.mp hk
      obtain ⟨u, hu⟩ := idxOf_occursAt needle t k0 hk0
      exact ⟨u, by simpa using hu⟩

theorem idxOf_least :
    ∀ (needle hay : Str) (k : Nat), idxOf needle hay = some k →
      ∀ j, j < k → ¬ occursAt needle hay j
  | needle, [], k => by
    simp only [idxOf]
    split
    · intro hk; cases hk; omega
    · intro hk; cases hk
  | needle, c :: t, k => by
    simp only [idxOf]
    split
    · intro hk; cases hk; omega
    · rename_i hlw
      intro hk j hj
      obtain ⟨k0, hk0, rfl⟩ := Option.map_eq_some'.mp hk
      match j with
      | 0 =>
        rintro ⟨u, hu⟩
        exact absurd ((leadsWith_iff needle (c :: t)).mpr ⟨u, by simpa using hu⟩) (by simp [hlw])
      | j0 + 1 =>
        rintro ⟨u, hu⟩
        exact idxOf_least needle t k0 hk0 j0 (by omega) ⟨u, by simpa using hu⟩

theorem idxOf_none :
    ∀ (needle hay : Str), idxOf needle hay = none → ∀ j, ¬ occursAt needle hay j
  | needle, [], hnone => by
    intro j
    rintro ⟨u, hu⟩
    simp only [idxOf] at hnone
    revert hnone
    split
    · intro hk; cases hk
    · rename_i hlw
      intro _
      exact absurd ((leadsWith_iff needle []).mpr
        ⟨u, by simpa [List.drop_nil] using hu⟩) (by simp [hlw])
  | needle, c :: t, hnone => by
    intro j
    simp only [idxOf] at hnone
    revert hnone
    split
    · intro hk; cases hk
    · rename_i hlw
      intro hnone
      have hnt : idxOf needle t = none := by
        cases h : idxOf needle t with
        | none => rfl
        | some k0 => rw [h] at hnone; cases hnone
      match j with
      | 0 =>
        rintro ⟨u, hu⟩
        exact absurd ((leadsWith_iff needle (c :: t)).mpr ⟨u, by simpa using hu⟩) (by simp [hlw])
      | j0 + 1 =>
        rintro ⟨u, hu⟩
        exact idxOf_none needle t hnt j0 ⟨u, by simpa using hu⟩

/-- The index `idxOf` returns is exactly the leftmost occurrence. -/
theorem idxOf_eq_of_leftmost (needle hay : Str) (k : Nat)
    (hocc : occursAt needle hay k) (hleft : ∀ j, j < k → ¬ occursAt needle hay j) :
    idxOf needle hay = some k := by
  cases h : idxOf needle hay with
  | none => exact absurd hocc (idxOf_none needle hay h k)
  | some k0 =>
    rcases Nat.lt_trichotomy k0 k with hlt | rfl | hgt
    · exact absurd (idxOf_occursAt needle hay k0 h) (hleft k0 hlt)
    · rfl
    · exact absurd hocc (idxOf_least needle hay k0 h k hgt)

/-- Splitting at a found index reassembles the original text. -/
theorem idxOf_recombine (needle hay : Str) (k : Nat) (h : idxOf needle hay = some k) :
    hay.take k ++ needle ++ hay.drop (k + needle.length) = hay := by
  obtain ⟨u, hu⟩ := idxOf_occursAt needle hay k h
  have hdrop : hay.drop (k + needle.length) = u := by
    rw [← List.drop_drop, hu, List.drop_left]
  rw [hdrop, List.append_assoc, ← hu, List.take_append_drop]

/-! ### Properties of the splice -/

/-- Concatenation of the texts of a fragment list. -/
def joinText (segs : List Fragment) : Str := (segs.map Fragment.text).flatten

theorem joinText_append (a b : List Fragment) :
    joinText (a ++ b) = joinText a ++ joinText b := by
  simp [joinText]

/-- The three splice pieces carry exactly the text of the fragment they
replace. -/
theorem spliceFrag_joinText (cid : String) (ct : Str) (f : Fragment) (k : Nat)
    (h : idxOf ct f.text = some k) :
    joinText (spliceFrag cid ct f k) = f.text := by
  have hre := idxOf_recombine ct f.text k h
  simp only [spliceFrag, joinText]
  split <;> split <;> simp_all

/-- A successful splice never changes the concatenated text. -/
theorem spliceSegs_joinText (cid : String) (ct : Str) :
    ∀ segs segs2 : List Fragment, spliceSegs cid ct segs = some segs2 →
      joinText segs2 = joinText segs
  | [], segs2 => by intro h; cases h
  | f :: rest, segs2 => by
    simp only [spliceSegs]
    split
    · rename_i rest2 hrest
      intro h
      cases h
      have := spliceSegs_joinText cid ct rest rest2 hrest
      simp [joinText, this]
      simpa [joinText] using this
    · split
      · rename_i hidx
        split
        · intro h
          cases h
          rw [joinText_append, spliceFrag_joinText cid ct f _ hidx]
          simp [joinText]
        · intro h; cases h
      · intro h; cases h

/-- The backward scan falls through exactly when no fragment is eligible:
every fragment has a non-falsy `claimId` or does not contain the text. -/
theorem spliceSegs_none_iff (cid : String) (ct : Str) :
    ∀ segs : List Fragment, spliceSegs cid ct segs = none ↔
      ∀ f ∈ segs, falsyId f.claimId = false ∨ idxOf ct f.text = none
  | [] => by simp [spliceSegs]
  | f :: rest => by
    have ih := spliceSegs_none_iff cid ct rest
    constructor
    · intro h g hg
      have hrest : spliceSegs cid ct rest = none := by
        cases hr : spliceSegs cid ct rest with
        | none => rfl
        | some rest2 => simp [spliceSegs, hr] at h
      have hf : falsyId f.claimId = false ∨ idxOf ct f.text = none := by
        cases hidx : idxOf ct f.text with
        | none => exact Or.inr rfl
        | some k =>
          cases hfal : falsyId f.claimId with
          | false => exact Or.inl rfl
          | true => simp [spliceSegs, hrest, hidx, hfal] at h
      rcases List.mem_cons.mp hg with rfl | hgrest
      · exact hf
      · exact ih.mp hrest g hgrest
    · intro h
      have hrest : spliceSegs cid ct rest = none :=
        ih.mpr (fun g hg => h g (List.mem_cons_of_mem f hg))
      rcases h f (List.mem_cons_self f rest) with hfal | hidx
      · cases hidx2 : idxOf ct f.text with
        | none => simp [spliceSegs, hrest, hidx2]
        | some k => simp [spliceSegs, hrest, hidx2, hfal]
      · simp [spliceSegs, hrest, hidx]

/-- Characterization of a successful backward scan: if the fragment at
index `i` is eligible and no later fragment is, the result replaces exactly
that fragment with the splice pieces. -/
theorem spliceSegs_eq_at (cid : String) (ct : Str) :
    ∀ (segs : List Fragment) (i k : Nat) (hi : i < segs.length),
      falsyId (segs.get ⟨i, hi⟩).claimId = true →
      idxOf ct (segs.get ⟨i, hi⟩).text = some k →
      (∀ (j : Nat) (hj : j < segs.length), i < j →
        falsyId (segs.get ⟨j, hj⟩).claimId = false ∨ idxOf ct (segs.get ⟨j, hj⟩).text = none) →
      spliceSegs cid ct segs =
        some (segs.take i ++ spliceFrag cid ct (segs.get ⟨i, hi⟩) k ++ segs.drop (i + 1))
  | [], i, k, hi => by simp at hi
  | f :: rest, 0, k, hi => by
    intro hfal hidx hlater
    have hrest : spliceSegs cid ct rest = none := by
      rw [spliceSegs_none_iff]
      intro g hg
      obtain ⟨jf, rfl⟩ := List.mem_iff_get.mp hg
      have hjlt := Nat.succ_lt_succ jf.isLt
      have := hlater (jf.val + 1) (by simp only [List.length_cons]; exact hjlt) (Nat.succ_pos jf.val)
      simpa using this
    simp only [spliceSegs, hrest]
    simp only [List.get] at hfal hidx
    rw [hidx]
    simp [hfal]
  | f :: rest, i + 1, k, hi => by
    intro hfal hidx hlater
    have hrest := spliceSegs_eq_at cid ct rest i k (by simpa using Nat.lt_of_succ_lt_succ hi)
      (by simpa using hfal) (by simpa using hidx)
      (fun j hj hij => by
        have := hlater (j + 1) (by simpa using Nat.succ_lt_succ hj) (Nat.succ_lt_succ hij)
        simpa using this)
    simp only [spliceSegs, hrest]
    simp [List.get]

/-! ### Engine-level helper lemmas -/

theorem fullText_eq_joinText (s : EngineState) : fullText s = joinText s.transcriptSegments := rfl

theorem fullText_onTranscript (s : EngineState) (t : Str) :
    fullText (onTranscript s t) = fullText s ++ t := by
  simp [fullText, onTranscript, joinText]

theorem fullText_onClaimDetected (s : EngineState) (id : String) (ct : Str) :
    fullText (onClaimDetected s id ct).1 = fullText s := by
  simp only [onClaimDetected]
  cases h : spliceSegs id ct s.transcriptSegments with
  | none => rfl
  | some segs2 =>
    simpa [fullText_eq_joinText] using spliceSegs_joinText id ct s.transcriptSegments segs2 h

theorem fullText_onFactCheck (s : EngineState) (id : String) (v : Bool) (e : String) :
    fullText (onFactCheck s id v e).1 = fullText s := rfl

theorem fullText_foldl :
    ∀ (ops : List Op) (s : EngineState),
      fullText (ops.foldl applyOp s) = fullText s ++ transcriptText ops
  | [], s => by simp [transcriptText]
  | op :: rest, s => by
    rw [List.foldl_cons, fullText_foldl rest (applyOp s op)]
    cases op with
    | transcript t =>
      rw [transcriptText]
      simp [applyOp, fullText_onTranscript, List.append_assoc]
    | claimDetected id ct =>
      rw [transcriptText]
      simp [applyOp, fullText_onClaimDetected]
    | factCheck id v e =>
      rw [transcriptText]
      simp [applyOp, fullText_onFactCheck]

/-! ### Claim theorems -/

/-- C1: for every sequence of `onTranscript`/`onClaimDetected` (and
`onFactCheck`) calls starting from the empty state, concatenating the text
of all fragments in order equals the concatenation of all `onTranscript`
texts in the order submitted; quantifying over all message sequences makes
the invariant hold after every individual operation. -/
theorem claim_C1_full_text_invariant (ops : List Op) :
    fullText (runOps ops) = transcriptText ops := by
  have h := fullText_foldl ops initState
  simpa [runOps, initState, fullText, joinText] using h

/-- The empty string (the one claim-id value besides `null` that is falsy
in JS). -/
def emptyStr : String := ""

theorem falsyId_false_of (c : Option String) (hne : c ≠ none) (hwf : c ≠ some emptyStr) :
    falsyId c = false := by
  cases c with
  | none => exact absurd rfl hne
  | some str =>
    simp only [falsyId, beq_eq_false_iff_ne, ne_eq]
    intro h
    exact hwf (by rw [h]; rfl)

theorem idxOf_eq_none_of (needle hay : Str) (h : ∀ j, ¬ occursAt needle hay j) :
    idxOf needle hay = none := by
  cases hk : idxOf needle hay with
  | none => rfl
  | some k => exact absurd (idxOf_occursAt needle hay k hk) (h k)

/-- C2: `onClaimDetected` scans the fragments from the most recent
backward, picks the first fragment with `claimId` null containing the claim
text (at its leftmost occurrence `k`), and replaces exactly that fragment
with before (omitted if empty), the claim fragment, and after (omitted if
empty), leaving all other fragments untouched.  The hypothesis `hwf`
excludes the empty string as a stored claim id (ids are backend-generated non-empty
strings), under which the JS truthiness test coincides with a null test. -/
theorem claim_C2_backward_splice (s : EngineState) (id : String) (ct : Str) (i k : Nat)
    (hi : i < s.transcriptSegments.length)
    (hwf : ∀ f ∈ s.transcriptSegments, f.claimId ≠ some emptyStr)
    (hnull : (s.transcriptSegments.get ⟨i, hi⟩).claimId = none)
    (hocc : occursAt ct (s.transcriptSegments.get ⟨i, hi⟩).text k)
    (hleft : ∀ j, j < k → ¬ occursAt ct (s.transcriptSegments.get ⟨i, hi⟩).text j)
    (hlater : ∀ (j : Nat) (hj : j < s.transcriptSegments.length), i < j →
      (s.transcriptSegments.get ⟨j, hj⟩).claimId ≠ none ∨
        ∀ m, ¬ occursAt ct (s.transcriptSegments.get ⟨j, hj⟩).text m) :
    onClaimDetected s id ct =
      (⟨s.transcriptSegments.take i ++
          ((if (s.transcriptSegments.get ⟨i, hi⟩).text.take k = [] then []
            else [⟨(s.transcriptSegments.get ⟨i, hi⟩).text.take k, none⟩]) ++
            [⟨ct, some id⟩] ++
            (if (s.transcriptSegments.get ⟨i, hi⟩).text.drop (k + ct.length) = [] then []
             else [⟨(s.transcriptSegments.get ⟨i, hi⟩).text.drop (k + ct.length), none⟩])) ++
          s.transcriptSegments.drop (i + 1),
        s.claims ++ [newClaimRec id ct]⟩,
       Outcome.spliced) := by
  have hidx : idxOf ct (s.transcriptSegments.get ⟨i, hi⟩).text = some k :=
    idxOf_eq_of_leftmost _ _ _ hocc hleft
  have hfal : falsyId (s.transcriptSegments.get ⟨i, hi⟩).claimId = true := by
    rw [hnull]; rfl
  have hlater2 : ∀ (j : Nat) (hj : j < s.transcriptSegments.length), i < j →
      falsyId (s.transcriptSegments.get ⟨j, hj⟩).claimId = false ∨
        idxOf ct (s.transcriptSegments.get ⟨j, hj⟩).text = none := by
    intro j hj hij
    rcases hlater j hj hij with hne | hnocc
    · exact Or.inl (falsyId_false_of _ hne (hwf _ (s.transcriptSegments.get_mem j hj)))
    · exact Or.inr (idxOf_eq_none_of _ _ hnocc)
  have hsplice := spliceSegs_eq_at id ct s.transcriptSegments i k hi hfal hidx hlater2
  simp only [onClaimDetected, hsplice, spliceFrag]

/-- The three-fragment state of the concrete example in the claim. -/
def exampleState : EngineState :=
  ⟨[⟨("A ").toList, none⟩, ⟨("B is true").toList, none⟩, ⟨(" and C").toList, none⟩], []⟩

/-- C2 witness: the concrete example from the claim — fragments
`["A ", "B is true", " and C"]` with claim text `"B is true"` splice to
`["A ", {"B is true", id}, " and C"]`. -/
theorem claim_C2_backward_splice_witness :
    onClaimDetected exampleState ("id1") (("B is true").toList) =
      (⟨[⟨("A ").toList, none⟩, ⟨("B is true").toList, some ("id1")⟩, ⟨(" and C").toList, none⟩],
        [newClaimRec ("id1") (("B is true").toList)]⟩,
       Outcome.spliced) := by
  have h := claim_C2_backward_splice exampleState
    ("id1") (("B is true").toList) 1 0 (by decide) (by decide) (by decide) (by decide)
    (fun j hj => absurd hj (Nat.not_lt_zero j))
    (by
      intro j hj h1
      have hj3 : j < 3 := by simpa [exampleState] using hj
      have hj2 : j = 2 := by omega
      subst hj2
      have hg : exampleState.transcriptSegments.get ⟨2, hj⟩ = ⟨(" and C").toList, none⟩ := rfl
      rw [hg]
      exact Or.inr (fun m => (idxOf_none _ _ (by decide) m)))
  exact h.trans (by decide)

theorem map_eq_self_of {α : Type} (l : List α) (f : α → α) (h : ∀ x ∈ l, f x = x) :
    l.map f = l := by
  induction l with
  | nil => rfl
  | cons a t ih =>
    rw [List.map_cons, h a (List.mem_cons_self a t),
      ih (fun x hx => h x (List.mem_cons_of_mem a hx))]

/-- The registry append of the `claim_detected` handler happens whether or
not the splice found a fragment. -/
theorem onClaimDetected_claims_eq (s : EngineState) (id : String) (ct : Str) :
    (onClaimDetected s id ct).1.claims = s.claims ++ [newClaimRec id ct] := by
  simp only [onClaimDetected]
  cases h : spliceSegs id ct s.transcriptSegments <;> rfl

/-- C6: an unmatched claim or fact-check id is non-destructive.  If the
claim text occurs in no fragment with a null claim id (ids being non-empty
strings), `onClaimDetected` reports `notFound` and leaves the fragment
sequence unchanged; if no registry entry carries the id, `onFactCheck`
reports `notFound` and leaves the whole state unchanged. -/
theorem claim_C6_not_found_non_destructive (s : EngineState) (id : String) (ct : Str)
    (v : Bool) (e : String)
    (hwf : ∀ f ∈ s.transcriptSegments, f.claimId ≠ some emptyStr)
    (hnocc : ∀ f ∈ s.transcriptSegments, f.claimId = none → ∀ m, ¬ occursAt ct f.text m)
    (hid : ∀ c ∈ s.claims, c.id ≠ id) :
    ((onClaimDetected s id ct).1.transcriptSegments = s.transcriptSegments ∧
      (onClaimDetected s id ct).2 = Outcome.notFound) ∧
    ((onFactCheck s id v e).1 = s ∧ (onFactCheck s id v e).2 = Outcome.notFound) := by
  have hsplice : spliceSegs id ct s.transcriptSegments = none := by
    rw [spliceSegs_none_iff]
    intro f hf
    cases hc : f.claimId with
    | none => exact Or.inr (idxOf_eq_none_of _ _ (hnocc f hf hc))
    | some str =>
      exact Or.inl (falsyId_false_of _ (by simp [hc]) (hc ▸ hwf f hf))
  have hany : s.claims.any (fun c => c.id == id) = false :=
    List.any_eq_false.mpr (fun c hc => by simpa using hid c hc)
  refine ⟨⟨?_, ?_⟩, ?_, ?_⟩
  · simp [onClaimDetected, hsplice]
  · simp [onClaimDetected, hsplice]
  · have hmap : s.claims.map (updClaim id v e) = s.claims :=
      map_eq_self_of _ _ (fun c hc => by simp [updClaim, hid c hc])
    simp [onFactCheck, hmap]
  · simp [onFactCheck, hany]

/-- C6 witness: `onClaimDetected` with text `"zzz"` against the example
three-fragment state, and `onFactCheck` with an id absent from the (empty)
registry. -/
theorem claim_C6_not_found_non_destructive_witness :
    ((onClaimDetected exampleState ("nope") (("zzz").toList)).1.transcriptSegments =
        exampleState.transcriptSegments ∧
      (onClaimDetected exampleState ("nope") (("zzz").toList)).2 = Outcome.notFound) ∧
    ((onFactCheck exampleState ("nope") true ("ex")).1 = exampleState ∧
      (onFactCheck exampleState ("nope") true ("ex")).2 = Outcome.notFound) := by
  refine claim_C6_not_found_non_destructive exampleState ("nope") (("zzz").toList) true ("ex")
    (by decide) ?_ (by decide)
  intro f hf hc
  fin_cases hf <;>
    exact fun m => idxOf_none _ _ (by decide) m

/-- The status/verdict/explanation coupling of one registry entry. -/
def claimFieldsOk (c : ClaimRec) : Prop :=
  c.status = ClaimStatus.complete ↔ (c.isTrue ≠ none ∧ c.explanation ≠ none)

theorem claimFieldsOk_new (id : String) (ct : Str) : claimFieldsOk (newClaimRec id ct) := by
  simp [claimFieldsOk, newClaimRec]

theorem claimFieldsOk_upd (id : String) (v : Bool) (e : String) (c : ClaimRec)
    (h : claimFieldsOk c) : claimFieldsOk (updClaim id v e c) := by
  rw [updClaim]
  split
  · simp [claimFieldsOk]
  · exact h

theorem claims_inv_applyOp (P : ClaimRec → Prop)
    (hNew : ∀ id ct, P (newClaimRec id ct))
    (hUpd : ∀ id v e c, P c → P (updClaim id v e c))
    (s : EngineState) (op : Op) (h : ∀ c ∈ s.claims, P c) :
    ∀ c ∈ (applyOp s op).claims, P c := by
  cases op with
  | transcript t => exact h
  | claimDetected id ct =>
    intro c hc
    rw [applyOp, onClaimDetected_claims_eq] at hc
    rcases List.mem_append.mp hc with hold | hnew
    · exact h c hold
    · rw [List.mem_singleton.mp hnew]
      exact hNew id ct
  | factCheck id v e =>
    intro c hc
    simp only [applyOp, onFactCheck, List.mem_map] at hc
    obtain ⟨c0, hc0, rfl⟩ := hc
    exact hUpd id v e c0 (h c0 hc0)

theorem claims_inv_foldl (P : ClaimRec → Prop)
    (hNew : ∀ id ct, P (newClaimRec id ct))
    (hUpd : ∀ id v e c, P c → P (updClaim id v e c)) :
    ∀ (ops : List Op) (s : EngineState), (∀ c ∈ s.claims, P c) →
      ∀ c ∈ (ops.foldl applyOp s).claims, P c
  | [], _, h => h
  | op :: rest, s, h =>
    claims_inv_foldl P hNew hUpd rest (applyOp s op) (claims_inv_applyOp P hNew hUpd s op h)

/-- C7: a claim is created `checking` with verdict and explanation unset
the moment it is reported; completeness of an entry is absorbing under
every operation (so the transition to `complete` happens at most once); a
fact-check whose id matches completes the entry, setting verdict and
explanation; and at every reachable state the verdict and
explanation of an entry are set iff its status is `complete`. -/
theorem claim_C7_claim_lifecycle :
    (∀ (s : EngineState) (id : String) (ct : Str),
      (onClaimDetected s id ct).1.claims = s.claims ++ [newClaimRec id ct] ∧
      (newClaimRec id ct).status = ClaimStatus.checking ∧
      (newClaimRec id ct).isTrue = none ∧ (newClaimRec id ct).explanation = none) ∧
    (∀ (s : EngineState) (op : Op) (j : Nat) (hj : j < s.claims.length)
      (hj2 : j < (applyOp s op).claims.length),
      (s.claims.get ⟨j, hj⟩).status = ClaimStatus.complete →
      ((applyOp s op).claims.get ⟨j, hj2⟩).status = ClaimStatus.complete) ∧
    (∀ (s : EngineState) (id : String) (v : Bool) (e : String) (j : Nat)
      (hj : j < s.claims.length) (hj2 : j < (onFactCheck s id v e).1.claims.length),
      (s.claims.get ⟨j, hj⟩).id = id →
      (onFactCheck s id v e).1.claims.get ⟨j, hj2⟩ =
        { s.claims.get ⟨j, hj⟩ with
            status := ClaimStatus.complete, isTrue := some v, explanation := some e }) ∧
    (∀ ops : List Op, ∀ c ∈ (runOps ops).claims, claimFieldsOk c) := by
  refine ⟨?_, ?_, ?_, ?_⟩
  · intro s id ct
    exact ⟨onClaimDetected_claims_eq s id ct, rfl, rfl, rfl⟩
  · intro s op j hj hj2 hst
    cases op with
    | transcript t => exact hst
    | claimDetected id ct =>
      have hget : (applyOp s (Op.claimDetected id ct)).claims.get ⟨j, hj2⟩ =
          s.claims.get ⟨j, hj⟩ := by
        have he : (applyOp s (Op.claimDetected id ct)).claims =
            s.claims ++ [newClaimRec id ct] := onClaimDetected_claims_eq s id ct
        rw [List.get_of_eq he ⟨j, hj2⟩, List.get_eq_getElem, List.get_eq_getElem,
          List.getElem_append_left hj]
      rw [hget]
      exact hst
    | factCheck id v e =>
      have hget : (applyOp s (Op.factCheck id v e)).claims.get ⟨j, hj2⟩ =
          updClaim id v e (s.claims.get ⟨j, hj⟩) := by
        simp only [applyOp, onFactCheck] at hj2 ⊢
        rw [List.get_eq_getElem, List.get_eq_getElem, List.getElem_map]
      rw [hget, updClaim]
      split
      · rfl
      · exact hst
  · intro s id v e j hj hj2 hid
    have hget : (onFactCheck s id v e).1.claims.get ⟨j, hj2⟩ =
        updClaim id v e (s.claims.get ⟨j, hj⟩) := by
      simp only [onFactCheck] at hj2 ⊢
      rw [List.get_eq_getElem, List.get_eq_getElem, List.getElem_map]
    rw [hget, updClaim, if_pos hid]
  · intro ops
    exact claims_inv_foldl claimFieldsOk claimFieldsOk_new claimFieldsOk_upd ops initState
      (by intro c hc; cases hc)

/-- C7 witness: a one-entry registry whose entry matches the fact-check id
— the entry stays complete under a further operation, is completed by a
matching fact-check, and the reachable-state coupling holds on a concrete
run. -/
theorem claim_C7_claim_lifecycle_witness :
    (((applyOp ⟨[], [⟨("a"), ("t").toList, ClaimStatus.complete, some true, some ("e")⟩]⟩
        (Op.transcript ("u").toList)).claims.get ⟨0, by decide⟩).status =
      ClaimStatus.complete) ∧
    ((onFactCheck ⟨[], [newClaimRec ("a") (("t").toList)]⟩ ("a") true ("e")).1.claims.get
        ⟨0, by decide⟩ =
      ⟨("a"), ("t").toList, ClaimStatus.complete, some true, some ("e")⟩) ∧
    claimFieldsOk ((runOps [Op.claimDetected ("a") (("t").toList)]).claims.get ⟨0, by decide⟩) := by
  refine ⟨?_, ?_, ?_⟩
  · exact claim_C7_claim_lifecycle.2.1
      ⟨[], [⟨("a"), ("t").toList, ClaimStatus.complete, some true, some ("e")⟩]⟩
      (Op.transcript ("u").toList) 0 (by decide) (by decide) rfl
  · exact (claim_C7_claim_lifecycle.2.2.1
      ⟨[], [newClaimRec ("a") (("t").toList)]⟩ ("a") true ("e") 0 (by decide) (by decide)
      rfl).trans (by decide)
  · exact claim_C7_claim_lifecycle.2.2.2 [Op.claimDetected ("a") (("t").toList)] _
      (List.get_mem _ 0 (by decide))

/-- C3 counterexample: reporting the same claim id twice over two identical
transcript fragments creates two fragments carrying that claim id and two
registry entries — the handler has no duplicate-id guard. -/
theorem claim_C3_counterexample :
    ((runOps [Op.transcript (("x").toList), Op.transcript (("x").toList),
        Op.claimDetected ("c1") (("x").toList),
        Op.claimDetected ("c1") (("x").toList)]).transcriptSegments.countP
      (fun f => f.claimId == some ("c1")) = 2) ∧
    ((runOps [Op.transcript (("x").toList), Op.transcript (("x").toList),
        Op.claimDetected ("c1") (("x").toList),
        Op.claimDetected ("c1") (("x").toList)]).claims.countP
      (fun c => c.id == ("c1")) = 2) := by decide

/-- C3 amended: a second `onClaimDetected` with an already-reported id is
neither rejected nor a no-op — the registry append is unconditional (and,
as the counterexample shows, the splice can attach the same id to a second
fragment when the text still occurs in an eligible fragment). -/
theorem claim_C3_amended_unconditional_append (s : EngineState) (id : String) (ct : Str) :
    (onClaimDetected s id ct).1.claims = s.claims ++ [newClaimRec id ct] :=
  onClaimDetected_claims_eq s id ct

/-- The empty needle occurs at offset 0 of every text (JS
`"abc".indexOf("") === 0`). -/
theorem idxOf_nil_left : ∀ hay : Str, idxOf [] hay = some 0
  | [] => rfl
  | _ :: _ => rfl

/-- C10 counterexample: against the fragment sequence `[{text: "",
claimId: null}]`, `onClaimDetected(c1, "")` does report `spliced`, but the
whole fragment is replaced by the empty claim fragment alone: the original
(empty) text does not survive as an `after` fragment, contrary to the
description of the result in the claim. -/
theorem claim_C10_counterexample :
    (onClaimDetected ⟨[⟨[], none⟩], []⟩ ("c1") []).2 = Outcome.spliced ∧
    (onClaimDetected ⟨[⟨[], none⟩], []⟩ ("c1") []).1.transcriptSegments =
      [⟨[], some ("c1")⟩] ∧
    (onClaimDetected ⟨[⟨[], none⟩], []⟩ ("c1") []).1.transcriptSegments ≠
      [⟨[], some ("c1")⟩, ⟨[], none⟩] := by decide

/-- C10 amended: with at least one fragment of null claim id (ids being
non-empty strings), `onClaimDetected` with the empty string always reports
`spliced`: the empty string matches at offset 0 of the most recent such
fragment, a fragment with empty text carrying the claim id replaces it, and
the original text survives as the `after` fragment exactly when it is
non-empty (an empty fragment is replaced by the claim fragment alone). -/
theorem claim_C10_amended_empty_claim_text (s : EngineState) (id : String) (i : Nat)
    (hi : i < s.transcriptSegments.length)
    (hwf : ∀ f ∈ s.transcriptSegments, f.claimId ≠ some emptyStr)
    (hnull : (s.transcriptSegments.get ⟨i, hi⟩).claimId = none)
    (hlast : ∀ (j : Nat) (hj : j < s.transcriptSegments.length), i < j →
      (s.transcriptSegments.get ⟨j, hj⟩).claimId ≠ none) :
    onClaimDetected s id [] =
      (⟨s.transcriptSegments.take i ++
          ([⟨[], some id⟩] ++
            (if (s.transcriptSegments.get ⟨i, hi⟩).text = [] then []
             else [⟨(s.transcriptSegments.get ⟨i, hi⟩).text, none⟩])) ++
          s.transcriptSegments.drop (i + 1),
        s.claims ++ [newClaimRec id []]⟩,
       Outcome.spliced) := by
  have hfal : falsyId (s.transcriptSegments.get ⟨i, hi⟩).claimId = true := by
    rw [hnull]; rfl
  have hlater2 : ∀ (j : Nat) (hj : j < s.transcriptSegments.length), i < j →
      falsyId (s.transcriptSegments.get ⟨j, hj⟩).claimId = false ∨
        idxOf [] (s.transcriptSegments.get ⟨j, hj⟩).text = none := by
    intro j hj hij
    exact Or.inl (falsyId_false_of _ (hlast j hj hij)
      (hwf _ (s.transcriptSegments.get_mem j hj)))
  have hsplice := spliceSegs_eq_at id [] s.transcriptSegments i 0 hi hfal
    (idxOf_nil_left _) hlater2
  simp only [onClaimDetected, hsplice, spliceFrag, List.take_zero, List.length_nil,
    Nat.add_zero, List.drop_zero, ite_true]
  simp

/-- C10 witness for the amended claim: a single non-empty plain fragment —
the empty claim text splices in front and the whole original text survives
behind it. -/
theorem claim_C10_amended_empty_claim_text_witness :
    onClaimDetected ⟨[⟨("hello").toList, none⟩], []⟩ ("c1") [] =
      (⟨[⟨[], some ("c1")⟩, ⟨("hello").toList, none⟩],
        [newClaimRec ("c1") []]⟩, Outcome.spliced) := by
  have h := claim_C10_amended_empty_claim_text ⟨[⟨("hello").toList, none⟩], []⟩ ("c1") 0
    (by decide) (by decide) (by decide)
    (by
      intro j hj h0
      have hj1 : j < 1 := by simpa using hj
      omega)
  exact h.trans (by decide)

/-! ### Transport: connect / reconnect / teardown

Embedded from `connectWebSocket` (which runs `new WebSocket(...)`
unconditionally — no readiness guard), `ws.onclose` (which runs
`setTimeout(connectWebSocket, 3000)` unconditionally — no teardown check,
and nothing in the file ever calls `clearTimeout`), and the `useEffect`
cleanup (which cancels the animation frame and calls `wsRef.current.close()`
but clears no reconnect timer). -/

/-- Observable transport state: how many sockets were constructed, how many
reconnect timers are pending, whether the unmount cleanup has run, and how
many sockets were constructed after it ran. -/
structure TransportState where
  socketsCreated : Nat
  pendingTimers : Nat
  tornDown : Bool
  attemptsAfterTeardown : Nat
deriving DecidableEq, Repr

/-- The body of `connectWebSocket`: construct a socket, unconditionally. -/
def createSocket (s : TransportState) : TransportState :=
  { s with
      socketsCreated := s.socketsCreated + 1,
      attemptsAfterTeardown :=
        if s.tornDown then s.attemptsAfterTeardown + 1 else s.attemptsAfterTeardown }

/-- The scheduler-level events driving the transport. -/
inductive TransportEvent
  | connect     -- a call of `connectWebSocket`
  | closeEvent  -- the `onclose` handler of a socket runs
  | timerFire   -- a pending reconnect timer fires, running `connectWebSocket`
  | teardown    -- the unmount cleanup runs (closes the socket, cancels only the animation frame)
deriving DecidableEq, Repr

/-- One transport step.  `onclose` always schedules a reconnect timer;
`teardown` only marks the component gone — the source clears no timeout. -/
def tstep (s : TransportState) : TransportEvent → TransportState
  | .connect => createSocket s
  | .closeEvent => { s with pendingTimers := s.pendingTimers + 1 }
  | .timerFire =>
      if s.pendingTimers = 0 then s
      else createSocket { s with pendingTimers := s.pendingTimers - 1 }
  | .teardown => { s with tornDown := true }

/-- Run an event sequence from the initial state of the mounted component. -/
def trun (evs : List TransportEvent) : TransportState :=
  evs.foldl tstep ⟨0, 0, false, 0⟩

/-- C4 counterexample: connect, then teardown; teardown closes the socket,
so its close event arrives and — contrary to the claim — schedules a
reconnect timer; when that timer fires, a connection attempt happens after
teardown. -/
theorem claim_C4_counterexample :
    (trun [TransportEvent.connect, TransportEvent.teardown,
        TransportEvent.closeEvent]).pendingTimers = 1 ∧
    (trun [TransportEvent.connect, TransportEvent.teardown, TransportEvent.closeEvent,
        TransportEvent.timerFire]).attemptsAfterTeardown = 1 := by decide

/-- C4 amended: teardown cancels no reconnect timer and sets no flag the
close handler consults: `onclose` schedules a reconnect unconditionally —
also after teardown, and also for the caller-initiated close — and the
teardown step leaves any pending timers in place, so connection attempts
can continue after teardown. -/
theorem claim_C4_amended_no_teardown_guard (s : TransportState) :
    (tstep s TransportEvent.closeEvent).pendingTimers = s.pendingTimers + 1 ∧
    (tstep s TransportEvent.teardown).pendingTimers = s.pendingTimers ∧
    (tstep s TransportEvent.teardown).socketsCreated = s.socketsCreated := by
  exact ⟨rfl, rfl, rfl⟩

/-- C5 counterexample: two immediate `connectWebSocket` calls create two
underlying sockets, not one — there is no single-flight guard. -/
theorem claim_C5_counterexample :
    (trun [TransportEvent.connect, TransportEvent.connect]).socketsCreated = 2 := by decide

/-- C5 amended: `connectWebSocket` is unguarded — every call constructs a
new socket regardless of the current connection state, so n calls create
n sockets. -/
theorem claim_C5_amended_unguarded_connect (s : TransportState) :
    (tstep s TransportEvent.connect).socketsCreated = s.socketsCreated + 1 := rfl

/-! ### Audio frames: `mediaRecorder.ondataavailable` -/

/-- Readiness states of a browser WebSocket handle. -/
inductive ReadyState
  | connecting
  | opened
  | closing
  | closed
deriving DecidableEq, Repr

/-- The send guard of `mediaRecorder.ondataavailable`:
`event.data.size > 0 && wsRef.current?.readyState === WebSocket.OPEN`.
The handler does nothing but this one conditional send, so no other state
changes and no error is raised when the guard fails. -/
def frameSent (size : Nat) (ws : Option ReadyState) : Bool :=
  decide (0 < size) && decide (ws = some ReadyState.opened)

/-- C8 counterexample: the claimed "sent iff the connection is open" fails
for an empty frame on an open connection — the guard also requires a
positive size, so the frame is dropped although the connection is open. -/
theorem claim_C8_counterexample :
    ¬ (frameSent 0 (some ReadyState.opened) = true ↔
        (some ReadyState.opened : Option ReadyState) = some ReadyState.opened) := by decide

/-- C8 amended: a frame is handed to the transport as one binary send iff
it is non-empty and the connection is open; in every other case it is
silently dropped (never queued, no error, no other state change). -/
theorem claim_C8_amended_send_guard (size : Nat) (ws : Option ReadyState) :
    frameSent size ws = true ↔ (0 < size ∧ ws = some ReadyState.opened) := by
  simp [frameSent]

/-! ### Audio pipeline: the PCM quantizer

No quantizer exists under `src/` — the capture path hands WebM/Opus
`MediaRecorder` chunks to the socket and the upload path sends raw file
bytes, so the PCM encoder described by the spec is code of the repository
not present in the sources given.  It is modelled here from the words of the spec, with samples as exact rationals. -/

/-- Modelled from the spec: clamp a sample to `[-1, 1]` (the first step of the quantizer; the quantizer itself is not under `src/`). -/
def clampSample (x : ℚ) : ℚ := max (-1) (min 1 x)

/-- Modelled from the spec: scale a clamped sample to a 16-bit signed
integer, `+32767` for positive values and `-32768` for negative ones
(truncation toward zero, as JS float-to-int conversion does). -/
def quantizeSample (x : ℚ) : ℤ :=
  if 0 ≤ clampSample x then ⌊clampSample x * 32767⌋ else ⌈clampSample x * 32768⌉

/-- Modelled from the spec: the little-endian byte pair of the 16-bit
twos-complement encoding of one quantized sample. -/
def toLEBytes (n : ℤ) : List Nat :=
  [(n % 65536).toNat % 256, (n % 65536).toNat / 256]

/-- Modelled from the spec: `quantize(samples) -> bytes`, a flat
little-endian byte buffer of `2 * len(samples)` bytes. -/
def quantize (samples : List ℚ) : List Nat :=
  (samples.map (fun x => toLEBytes (quantizeSample x))).flatten

theorem clampSample_mem (x : ℚ) : -1 ≤ clampSample x ∧ clampSample x ≤ 1 :=
  ⟨le_max_left _ _, max_le (by norm_num) (min_le_left _ _)⟩

theorem quantizeSample_bounds (x : ℚ) :
    -32768 ≤ quantizeSample x ∧ quantizeSample x ≤ 32767 := by
  obtain ⟨h1, h2⟩ := clampSample_mem x
  rw [quantizeSample]
  split
  · rename_i h0
    constructor
    · have h := Int.floor_nonneg.mpr (show (0 : ℚ) ≤ clampSample x * 32767 by positivity)
      omega
    · have h : ⌊clampSample x * 32767⌋ ≤ ⌊(32767 : ℚ)⌋ :=
        Int.floor_le_floor (by nlinarith)
      simpa using h
  · rename_i h0
    push_neg at h0
    constructor
    · have h : ⌈(-32768 : ℚ)⌉ ≤ ⌈clampSample x * 32768⌉ :=
        Int.ceil_le_ceil (by nlinarith)
      simpa using h
    · have h : ⌈clampSample x * 32768⌉ ≤ ⌈(0 : ℚ)⌉ :=
        Int.ceil_le_ceil (by nlinarith)
      simp only [Int.ceil_zero] at h
      omega

theorem quantize_length : ∀ samples : List ℚ, (quantize samples).length = 2 * samples.length
  | [] => rfl
  | x :: t => by
    have ih := quantize_length t
    simp only [quantize, List.map_cons, List.flatten_cons, List.length_append,
      List.length_cons, List.length_nil, toLEBytes] at ih ⊢
    omega

/-- C9: the quantizer clamps each sample to `[-1, 1]` and scales positives
by `+32767` and negatives by `-32768`, so every output sample lies in
`[-32768, 32767]`; input `1` maps to `32767` and `-1` to `-32768`; the
output is a little-endian byte buffer of exactly `2 * len(samples)`
bytes. -/
theorem claim_C9_quantizer_bounded (samples : List ℚ) :
    (∀ x ∈ samples, -32768 ≤ quantizeSample x ∧ quantizeSample x ≤ 32767) ∧
    quantizeSample 1 = 32767 ∧
    quantizeSample (-1) = -32768 ∧
    (quantize samples).length = 2 * samples.length := by
  refine ⟨fun x _ => quantizeSample_bounds x, ?_, ?_, quantize_length samples⟩
  · norm_num [quantizeSample, clampSample]
  · norm_num [quantizeSample, clampSample]
    rw [show ((-32768 : ℚ)) = ((-32768 : ℤ) : ℚ) by norm_num]
    exact Int.ceil_intCast _

/-- C9 witness: the quantizer applied to the concrete sample list
`[1, -1, 1/2]`. -/
theorem claim_C9_quantizer_bounded_witness :
    ((1 : ℚ) ∈ [(1 : ℚ), -1, 1/2] ∧
      -32768 ≤ quantizeSample 1 ∧ quantizeSample 1 ≤ 32767) ∧
    (quantize [(1 : ℚ), -1, 1/2]).length = 6 := by
  have h := claim_C9_quantizer_bounded [(1 : ℚ), -1, 1/2]
  exact ⟨⟨by simp, h.1 1 (by simp)⟩, by simpa using h.2.2.2⟩

end TruthStream
